import Mathlib

/-!
Verification of the recommendation inference engine of a movie-recommender
service (FastAPI + SQLite + SVD latent-factor model) against its
natural-language specification.  The definitions below are shallow embeddings
of the Python source: the SQLite rating ledger (`database.py`), the factor
model and the inference pipelines (`model_inference_with_db.py`), and the
request-validation layer (`main.py`).  Python floats are idealised as exact
arithmetic: rating data as `ℚ`, cosine-similarity values (which involve square
roots) as `ℝ`.  Python's `list.sort(key=..., reverse=True)` is a stable
descending sort and is embedded as `List.mergeSort` with the corresponding
comparator.
-/

/-! ## Rating Ledger (database.py) -/

/-- One row of the `ratings` table: (user, movie, rating, timestamp).
`database.py` stores `user_id`/`movie_id` as strings, `rating` as a float
(idealised `ℚ`) and `timestamp` as a datetime (idealised `Nat`). -/
structure RatingRecord where
  userId : String
  movieId : String
  rating : ℚ
  timestamp : Nat
deriving DecidableEq

/-- `RatingCRUD.create_rating`: look for an existing row with the same
(user, movie) key; update its rating and timestamp in place when found,
append a fresh row otherwise.  The row order of the list models SQLite's
insertion (rowid) order, which an in-place update leaves unchanged. -/
def createRating : List RatingRecord → String → String → ℚ → Nat → List RatingRecord
  | [], u, i, r, t => [⟨u, i, r, t⟩]
  | rec :: rest, u, i, r, t =>
    if rec.userId = u ∧ rec.movieId = i then ⟨u, i, r, t⟩ :: rest
    else rec :: createRating rest u i r t

/-- `RatingCRUD.get_user_ratings`: all rows of one user, in insertion order. -/
def getUserRatings (db : List RatingRecord) (u : String) : List RatingRecord :=
  db.filter (fun rec => decide (rec.userId = u))

/-- `RatingCRUD.get_rating`: the first row matching the (user, movie) key. -/
def getRating (db : List RatingRecord) (u i : String) : Option RatingRecord :=
  db.find? (fun rec => decide (rec.userId = u ∧ rec.movieId = i))

/-- All rows matching one (user, movie) key, used to state the uniqueness
invariant. -/
def pairRecords (db : List RatingRecord) (u i : String) : List RatingRecord :=
  db.filter (fun rec => decide (rec.userId = u ∧ rec.movieId = i))

/-- A sequence of `create_rating` calls starting from an empty table. -/
def applyUpserts (ops : List (String × String × ℚ × Nat)) : List RatingRecord :=
  ops.foldl (fun db op => createRating db op.1 op.2.1 op.2.2.1 op.2.2.2) []

/-- `AddRatingRequest` (main.py): pydantic accepts any user/movie string and
requires `1.0 ≤ rating ≤ 5.0` (`Field(..., ge=1.0, le=5.0)`). -/
def addRatingRequestValid (userId movieId : String) (rating : ℚ) : Bool :=
  1 ≤ rating && rating ≤ 5

/-! ### Ledger lemmas -/

theorem foldl_preserve {α γ : Type} (P : α → Prop) (step : α → γ → α)
    (h : ∀ a c, P a → P (step a c)) :
    ∀ (l : List γ) (a : α), P a → P (l.foldl step a) := by
  intro l
  induction l with
  | nil => intro a ha; simpa using ha
  | cons c cs ih => intro a ha; simpa using ih (step a c) (h a c ha)

theorem pairRecords_cons (rec : RatingRecord) (rest : List RatingRecord) (u i : String) :
    pairRecords (rec :: rest) u i =
      if rec.userId = u ∧ rec.movieId = i then rec :: pairRecords rest u i
      else pairRecords rest u i := by
  by_cases h : rec.userId = u ∧ rec.movieId = i
  · rw [if_pos h]
    exact List.filter_cons_of_pos (by simpa using h)
  · rw [if_neg h]
    exact List.filter_cons_of_neg (by simpa using h)

theorem createRating_cons (rec : RatingRecord) (rest : List RatingRecord)
    (u i : String) (r : ℚ) (t : Nat) :
    createRating (rec :: rest) u i r t =
      if rec.userId = u ∧ rec.movieId = i then (⟨u, i, r, t⟩ : RatingRecord) :: rest
      else rec :: createRating rest u i r t := rfl

theorem createRating_pair_other (db : List RatingRecord) (u i u' i' : String)
    (r : ℚ) (t : Nat) (hne : ¬(u' = u ∧ i' = i)) :
    pairRecords (createRating db u i r t) u' i' = pairRecords db u' i' := by
  have hnew : ¬((⟨u, i, r, t⟩ : RatingRecord).userId = u' ∧
      (⟨u, i, r, t⟩ : RatingRecord).movieId = i') :=
    fun ⟨h1, h2⟩ => hne ⟨h1.symm, h2.symm⟩
  induction db with
  | nil =>
    show pairRecords ((⟨u, i, r, t⟩ : RatingRecord) :: []) u' i' = pairRecords [] u' i'
    rw [pairRecords_cons, if_neg hnew]
  | cons rec rest ih =>
    rw [createRating_cons]
    by_cases hmatch : rec.userId = u ∧ rec.movieId = i
    · have hold : ¬(rec.userId = u' ∧ rec.movieId = i') :=
        fun ⟨h1, h2⟩ => hne ⟨h1.symm.trans hmatch.1, h2.symm.trans hmatch.2⟩
      rw [if_pos hmatch, pairRecords_cons, if_neg hnew, pairRecords_cons, if_neg hold]
    · rw [if_neg hmatch, pairRecords_cons, pairRecords_cons]
      by_cases hold : rec.userId = u' ∧ rec.movieId = i'
      · rw [if_pos hold, if_pos hold, ih]
      · rw [if_neg hold, if_neg hold]
        exact ih

theorem createRating_pair_same (db : List RatingRecord) (u i : String)
    (r : ℚ) (t : Nat) (hle : (pairRecords db u i).length ≤ 1) :
    pairRecords (createRating db u i r t) u i = [⟨u, i, r, t⟩] := by
  have hnew : (⟨u, i, r, t⟩ : RatingRecord).userId = u ∧
      (⟨u, i, r, t⟩ : RatingRecord).movieId = i := ⟨rfl, rfl⟩
  induction db with
  | nil =>
    show pairRecords ((⟨u, i, r, t⟩ : RatingRecord) :: []) u i = _
    rw [pairRecords_cons, if_pos hnew]
    rfl
  | cons rec rest ih =>
    rw [createRating_cons]
    by_cases hmatch : rec.userId = u ∧ rec.movieId = i
    · rw [pairRecords_cons, if_pos hmatch] at hle
      have hrest : pairRecords rest u i = [] := by
        simp only [List.length_cons] at hle
        exact List.length_eq_zero.mp (by omega)
      rw [if_pos hmatch, pairRecords_cons, if_pos hnew, hrest]
    · rw [pairRecords_cons, if_neg hmatch] at hle
      rw [if_neg hmatch, pairRecords_cons, if_neg hmatch]
      exact ih hle

theorem applyUpserts_pair_unique (ops : List (String × String × ℚ × Nat)) (u i : String) :
    (pairRecords (applyUpserts ops) u i).length ≤ 1 := by
  have main : ∀ u' i', (pairRecords (applyUpserts ops) u' i').length ≤ 1 := by
    have := foldl_preserve
      (fun db => ∀ u' i', (pairRecords db u' i').length ≤ 1)
      (fun db op => createRating db op.1 op.2.1 op.2.2.1 op.2.2.2)
      (by
        intro db op hdb u' i'
        by_cases hkey : u' = op.1 ∧ i' = op.2.1
        · rw [hkey.1, hkey.2]
          rw [createRating_pair_same db op.1 op.2.1 op.2.2.1 op.2.2.2 (hdb _ _)]
          simp
        · rw [createRating_pair_other db op.1 op.2.1 u' i' op.2.2.1 op.2.2.2 hkey]
          exact hdb u' i')
      ops []
      (by intro u' i'; simp [pairRecords])
    exact this
  exact main u i

/-- C1: the Rating Ledger holds at most one record per (user, item) pair.  For
any sequence of upserts from an empty table the count of records for every
pair stays at most one, and submitting two ratings for the same pair leaves
exactly one record, carrying the later score and the later timestamp. -/
theorem ledger_pair_uniqueness (ops : List (String × String × ℚ × Nat))
    (u i : String) (s₁ s₂ : ℚ) (t₁ t₂ : Nat) :
    (∀ u' i', (pairRecords (applyUpserts ops) u' i').length ≤ 1) ∧
    pairRecords (createRating (createRating (applyUpserts ops) u i s₁ t₁) u i s₂ t₂) u i
      = [⟨u, i, s₂, t₂⟩] := by
  refine ⟨fun u' i' => applyUpserts_pair_unique ops u' i', ?_⟩
  have h1 : pairRecords (createRating (applyUpserts ops) u i s₁ t₁) u i = [⟨u, i, s₁, t₁⟩] :=
    createRating_pair_same _ u i s₁ t₁ (applyUpserts_pair_unique ops u i)
  have h2 : (pairRecords (createRating (applyUpserts ops) u i s₁ t₁) u i).length ≤ 1 := by
    rw [h1]; simp
  exact createRating_pair_same _ u i s₂ t₂ h2

theorem getRating_createRating (db : List RatingRecord) (u i : String) (s : ℚ) (t : Nat) :
    getRating (createRating db u i s t) u i = some ⟨u, i, s, t⟩ := by
  induction db with
  | nil => simp [createRating, getRating]
  | cons rec rest ih =>
    by_cases hmatch : rec.userId = u ∧ rec.movieId = i
    · simp [createRating, getRating, hmatch]
    · simp only [createRating, if_neg hmatch, getRating] at ih ⊢
      rw [List.find?_cons_of_neg _ (by simpa using hmatch)]
      exact ih

/-- C10: the ledger upsert performs no score-range validation: any score,
also one outside [1, 5], is persisted exactly as given; the [1, 5]
restriction exists only in the HTTP request model (`AddRatingRequest`). -/
theorem ledger_accepts_any_score (db : List RatingRecord) (u i : String) (s : ℚ) (t : Nat) :
    getRating (createRating db u i s t) u i = some ⟨u, i, s, t⟩ ∧
    addRatingRequestValid u i 6 = false ∧ addRatingRequestValid u i s
      = (decide (1 ≤ s) && decide (s ≤ 5)) := by
  refine ⟨getRating_createRating db u i s t, rfl, rfl⟩

/-! ## Factor Model (the trained artifact consumed by model_inference_with_db.py)

The surprise `Trainset`/`SVD` pair is a data artifact: raw-id/inner-id
mappings (`to_inner_uid`, `to_inner_iid`, `to_raw_iid`), per-item latent
factor rows `qi`, per-user training ratings `ur`, bias terms and the global
mean.  It is embedded as one immutable structure; list positions are the
inner ids. -/

structure FactorModel where
  users : List String
  items : List String
  pu : List (List ℚ)
  qi : List (List ℚ)
  bu : List ℚ
  bi : List ℚ
  globalMean : ℚ
  ur : List (List (Nat × ℚ))
  titles : List (String × String)
deriving DecidableEq

/-- `trainset.to_inner_uid` succeeds exactly on users with a factor row. -/
def toInnerUid (m : FactorModel) (u : String) : Option Nat :=
  m.users.findIdx? (fun x => decide (x = u))

/-- `trainset.to_inner_iid`. -/
def toInnerIid (m : FactorModel) (i : String) : Option Nat :=
  m.items.findIdx? (fun x => decide (x = i))

/-- `trainset.to_raw_iid`. -/
def toRawIid (m : FactorModel) (iid : Nat) : String :=
  m.items.getD iid ""

/-- The `try/except ValueError` test around `to_inner_uid` in
`get_recommendations_from_db`. -/
def userInTrainset (m : FactorModel) (u : String) : Bool :=
  (toInnerUid m u).isSome

/-- Python dict insertion used by `defaultdict(list)`:
`d[k].append(v)` keeps an existing key at its position and appends the value;
a new key goes to the end. -/
def groupAdd {α : Type} : List (String × List α) → String → α → List (String × List α)
  | [], k, v => [(k, [v])]
  | p :: rest, k, v =>
    if p.1 = k then (p.1, p.2 ++ [v]) :: rest
    else p :: groupAdd rest k v

/-- `np.mean` over a Python list of floats. -/
def meanQ (l : List ℚ) : ℚ := l.sum / l.length

/-- `x.sort(key=lambda x: x[1], reverse=True)` comparator for `(id, score)`
pairs: a stable descending sort admits `a` before `b` iff `b.2 ≤ a.2`. -/
def byScoreQ (a b : String × ℚ) : Bool := decide (b.2 ≤ a.2)

/-! ## Popular movies (get_popular_movies) -/

/-- The `movie_ratings` defaultdict of `get_popular_movies`: every training
rating of every training user, grouped per raw movie id, keys in
first-encounter order. -/
def movieRatingsAgg (m : FactorModel) : List (String × List ℚ) :=
  (List.range m.users.length).foldl
    (fun acc uid =>
      (m.ur.getD uid []).foldl (fun a p => groupAdd a (toRawIid m p.1) p.2) acc)
    []

/-- The training-corpus observations of one movie. -/
def observations (m : FactorModel) (mid : String) : List ℚ :=
  ((movieRatingsAgg m).find? (fun q => decide (q.1 = mid))).elim [] (fun q => q.2)

/-- The `popular_movies` list before sorting: items passing the
`len(ratings) >= min_ratings` gate, paired with their mean rating. -/
def popularPassing (m : FactorModel) (minRatings : Nat) : List (String × ℚ) :=
  (movieRatingsAgg m).filterMap
    (fun q => if minRatings ≤ q.2.length then some (q.1, meanQ q.2) else none)

/-- `popular_movies.sort(key=lambda x: x[1], reverse=True)`. -/
def sortedPopular (m : FactorModel) (minRatings : Nat) : List (String × ℚ) :=
  (popularPassing m minRatings).mergeSort byScoreQ

/-- `get_popular_movies(n, min_ratings)`: aggregate, filter by threshold,
sort by descending mean, truncate to `n`. -/
def getPopularMovies (m : FactorModel) (n : Nat) (minRatings : Nat) : List (String × ℚ) :=
  (sortedPopular m minRatings).take n

/-! ### Lemmas about the aggregation and the sort -/

theorem byScoreQ_trans (a b c : String × ℚ) (hab : byScoreQ a b = true)
    (hbc : byScoreQ b c = true) : byScoreQ a c = true := by
  simp only [byScoreQ, decide_eq_true_eq] at hab hbc ⊢
  exact le_trans hbc hab

theorem byScoreQ_total (a b : String × ℚ) : (byScoreQ a b || byScoreQ b a) = true := by
  simp only [byScoreQ, Bool.or_eq_true, decide_eq_true_eq]
  exact le_total b.2 a.2

theorem groupAdd_keys_mem {α : Type} (d : List (String × List α)) (k : String) (v : α) :
    ∀ x ∈ (groupAdd d k v).map Prod.fst, x ∈ d.map Prod.fst ∨ x = k := by
  induction d with
  | nil => simp [groupAdd]
  | cons p rest ih =>
    by_cases h : p.1 = k
    · simp only [groupAdd, if_pos h, List.map_cons, List.mem_cons]
      intro x hx
      rcases hx with hx | hx
      · exact Or.inl (Or.inl hx)
      · exact Or.inl (Or.inr hx)
    · simp only [groupAdd, if_neg h, List.map_cons, List.mem_cons]
      intro x hx
      rcases hx with hx | hx
      · exact Or.inl (Or.inl hx)
      · rcases ih x hx with h2 | h2
        · exact Or.inl (Or.inr h2)
        · exact Or.inr h2

theorem groupAdd_keys_nodup {α : Type} (d : List (String × List α)) (k : String) (v : α)
    (h : (d.map Prod.fst).Nodup) : ((groupAdd d k v).map Prod.fst).Nodup := by
  induction d with
  | nil => simp [groupAdd]
  | cons p rest ih =>
    rw [List.map_cons, List.nodup_cons] at h
    by_cases hk : p.1 = k
    · simp only [groupAdd, if_pos hk, List.map_cons, List.nodup_cons]
      exact ⟨h.1, h.2⟩
    · simp only [groupAdd, if_neg hk, List.map_cons, List.nodup_cons]
      refine ⟨?_, ih h.2⟩
      intro hmem
      rcases groupAdd_keys_mem rest k v p.1 hmem with h2 | h2
      · exact h.1 h2
      · exact hk h2

theorem movieRatingsAgg_keys_nodup (m : FactorModel) :
    ((movieRatingsAgg m).map Prod.fst).Nodup := by
  have outer := foldl_preserve
    (fun d : List (String × List ℚ) => (d.map Prod.fst).Nodup)
    (fun acc uid =>
      (m.ur.getD uid []).foldl (fun a p => groupAdd a (toRawIid m p.1) p.2) acc)
    (fun acc uid hacc =>
      foldl_preserve (fun d : List (String × List ℚ) => (d.map Prod.fst).Nodup)
        (fun a p => groupAdd a (toRawIid m p.1) p.2)
        (fun a p ha => groupAdd_keys_nodup a (toRawIid m p.1) p.2 ha)
        (m.ur.getD uid []) acc hacc)
    (List.range m.users.length) [] (by simp)
  simpa [movieRatingsAgg] using outer

theorem find?_key_of_mem {β : Type} (d : List (String × β)) (pr : String × β)
    (hnd : (d.map Prod.fst).Nodup) (hmem : pr ∈ d) :
    d.find? (fun q => decide (q.1 = pr.1)) = some pr := by
  induction d with
  | nil => cases hmem
  | cons p rest ih =>
    rw [List.map_cons, List.nodup_cons] at hnd
    rcases List.mem_cons.mp hmem with heq | hrest
    · subst heq
      rw [List.find?_cons_of_pos _ (by simp)]
    · by_cases hk : p.1 = pr.1
      · exact absurd (hk ▸ List.mem_map_of_mem Prod.fst hrest) hnd.1
      · rw [List.find?_cons_of_neg _ (by simpa using hk)]
        exact ih hnd.2 hrest

theorem observations_of_mem_agg (m : FactorModel) (mid : String) (rs : List ℚ)
    (hmem : (mid, rs) ∈ movieRatingsAgg m) : observations m mid = rs := by
  have := find?_key_of_mem (movieRatingsAgg m) (mid, rs) (movieRatingsAgg_keys_nodup m) hmem
  simp only [observations, this, Option.elim]

/-- C9: the popular-items computation never emits an item with fewer
training-corpus observations than `min_ratings`; what it emits carries the
arithmetic mean of that item's training ratings, is sorted by descending
mean, and is truncated to the top `n`. -/
theorem popular_threshold_and_ranking (m : FactorModel) (n minRatings : Nat) :
    (∀ p ∈ getPopularMovies m n minRatings,
        minRatings ≤ (observations m p.1).length ∧ p.2 = meanQ (observations m p.1)) ∧
    List.Pairwise (fun a b : String × ℚ => b.2 ≤ a.2) (getPopularMovies m n minRatings) ∧
    (getPopularMovies m n minRatings).length ≤ n := by
  refine ⟨?_, ?_, ?_⟩
  · intro p hp
    have hp1 : p ∈ sortedPopular m minRatings := List.take_subset n _ hp
    have hp2 : p ∈ popularPassing m minRatings := List.mem_mergeSort.mp hp1
    rcases List.mem_filterMap.mp hp2 with ⟨q, hq, hsome⟩
    by_cases hlen : minRatings ≤ q.2.length
    · rw [if_pos hlen] at hsome
      have hobs : observations m p.1 = q.2 := by
        have hq1 : p.1 = q.1 := by rw [← Option.some_inj.mp hsome]
        rw [hq1]
        exact observations_of_mem_agg m q.1 q.2 hq
      rw [hobs]
      refine ⟨hlen, ?_⟩
      rw [← Option.some_inj.mp hsome]
    · rw [if_neg hlen] at hsome
      cases hsome
  · have hs := List.sorted_mergeSort byScoreQ_trans byScoreQ_total
      (popularPassing m minRatings)
    have ht : List.Pairwise (fun a b => byScoreQ a b = true) (getPopularMovies m n minRatings) :=
      List.Pairwise.sublist (List.take_sublist n _) hs
    exact ht.imp (fun h => by simpa [byScoreQ] using h)
  · simp [getPopularMovies]

/-! ### C6: tie order in ranked output -/

/-- A two-item factor model whose training corpus gives both items the same
mean rating, with item "2" encountered before item "1" in the aggregation
traversal. -/
def mC6 : FactorModel :=
  { users := ["a", "b"], items := ["2", "1"], pu := [[1], [1]], qi := [[1], [1]],
    bu := [0, 0], bi := [0, 0], globalMean := 3,
    ur := [[(0, 5)], [(1, 5)]], titles := [] }

theorem mC6_agg : movieRatingsAgg mC6 = [("2", [5]), ("1", [5])] := by
  decide

theorem meanQ_single : meanQ [5] = 5 := by
  norm_num [meanQ]

theorem mC6_passing : popularPassing mC6 1 = [("2", 5), ("1", 5)] := by
  rw [popularPassing, mC6_agg]
  simp only [List.filterMap]
  norm_num [meanQ]

theorem mC6_sorted : sortedPopular mC6 1 = [("2", 5), ("1", 5)] := by
  rw [sortedPopular, mC6_passing]
  apply List.mergeSort_of_sorted
  simp [byScoreQ]

/-- C6 counterexample: the popular-items ranking (the COLD_NO_HISTORY
strategy's output) lists item "2" before item "1" although both carry the
same score 5 and "1" < "2" — equal-score items do not appear in ascending
identifier order. -/
theorem tie_break_not_ascending_cex :
    getPopularMovies mC6 2 1 = [("2", 5), ("1", 5)] ∧ ("1" : String) < "2" := by
  constructor
  · rw [getPopularMovies, mC6_sorted]
    rfl
  · rw [String.lt_iff_toList_lt]
    decide

/-- C6 (amended): the sort is stable, so equal-score items appear in the
order the pre-sort enumeration produced them (training-corpus
first-encounter order for the popular list), not in ascending identifier
order; the output is still a deterministic function of the model. -/
theorem tie_break_stable_enumeration (m : FactorModel) (minRatings : Nat)
    (x y : String × ℚ) (hxy : x.2 = y.2)
    (hsub : [x, y].Sublist (popularPassing m minRatings)) :
    [x, y].Sublist (sortedPopular m minRatings) :=
  List.pair_sublist_mergeSort byScoreQ_trans byScoreQ_total
    (by simp [byScoreQ, hxy]) hsub

theorem tie_break_stable_enumeration_witness :
    [(("2" : String), (5 : ℚ)), ("1", 5)].Sublist (sortedPopular mC6 1) :=
  tie_break_stable_enumeration mC6 1 ("2", 5) ("1", 5) rfl
    (by rw [mC6_passing])

/-! ## Similarity Engine and recommendation pipeline
(model_inference_with_db.py) -/

/-- `np.dot` of two float vectors. -/
def dotQ (a b : List ℚ) : ℚ := (List.zipWith (fun x y => x * y) a b).sum

/-- Cosine similarity between two latent-factor rows:
`np.dot(a, b) / (np.linalg.norm(a) * np.linalg.norm(b))`, with
`np.linalg.norm v = sqrt (dot v v)`.  The square root forces `ℝ`. -/
noncomputable def cosineSim (a b : List ℚ) : ℝ :=
  ((dotQ a b : ℚ) : ℝ) / (Real.sqrt ((dotQ a a : ℚ) : ℝ) * Real.sqrt ((dotQ b b : ℚ) : ℝ))

/-- Stable descending comparator on `(id, similarity)` pairs. -/
noncomputable def byScoreR (a b : String × ℝ) : Bool := decide (b.2 ≤ a.2)

/-- Stable descending comparator on `(id, score, title)` triples
(`key=lambda x: x[1]`). -/
noncomputable def byScoreR3 (a b : String × ℝ × String) : Bool := decide (b.2.1 ≤ a.2.1)

/-- `get_similar_movies(movie_id, n, exclude_movie_ids)`: unknown reference
item (`ValueError` from `to_inner_iid`) yields `[]`; otherwise every other
item not excluded is scored by cosine similarity in inner-id order, sorted
descending, truncated to `n`. -/
noncomputable def getSimilarMovies (m : FactorModel) (movieId : String) (n : Nat)
    (excl : List String) : List (String × ℝ) :=
  match toInnerIid m movieId with
  | none => []
  | some inner =>
    (((List.range m.items.length).filterMap (fun iid =>
        if iid = inner then none
        else if toRawIid m iid ∈ excl then none
        else some (toRawIid m iid, cosineSim (m.qi.getD inner []) (m.qi.getD iid [])))).mergeSort
      byScoreR).take n

/-- Python dict construction `{r.movie_id: r.rating for r in ratings}`: an
existing key keeps its position and takes the new value, a new key is
appended. -/
def dictInsert : List (String × ℚ) → String → ℚ → List (String × ℚ)
  | [], k, v => [(k, v)]
  | p :: rest, k, v => if p.1 = k then (p.1, v) :: rest else p :: dictInsert rest k v

/-- `get_user_ratings_from_db`: the user's ledger rows as a movie → rating
dict. -/
def userRatingsDict (db : List RatingRecord) (u : String) : List (String × ℚ) :=
  (getUserRatings db u).foldl (fun d rec => dictInsert d rec.movieId rec.rating) []

/-- `rated_movie_ids = set(user_ratings_db.keys())`. -/
def ratedIds (db : List RatingRecord) (u : String) : List String :=
  (userRatingsDict db u).map Prod.fst

/-- `get_movie_title`: catalog lookup with the `"Movie <id>"` fallback. -/
def getMovieTitle (m : FactorModel) (mid : String) : String :=
  ((m.titles.find? (fun p => decide (p.1 = mid))).elim ("Movie " ++ mid) (fun p => p.2))

/-- Modelled from the spec: the Prediction Engine scoring rule (§4.1).  The
fitted `SVD.predict` lives in the external surprise library, not in this
repository; the spec defines the score as global mean + user bias + item
bias + dot(user factors, item factors), falling back to the global mean
biased by whichever side is known when the other is absent from the Factor
Model. -/
def predictRating (m : FactorModel) (u i : String) : ℚ :=
  match toInnerUid m u, toInnerIid m i with
  | some uu, some ii =>
      m.globalMean + m.bu.getD uu 0 + m.bi.getD ii 0 + dotQ (m.pu.getD uu []) (m.qi.getD ii [])
  | some uu, none => m.globalMean + m.bu.getD uu 0
  | none, some ii => m.globalMean + m.bi.getD ii 0
  | none, none => m.globalMean

/-- CASE 3 and the CASE 2 fallthrough: `get_popular_movies(n=n)` with its
default `min_ratings=50`, wrapped with titles exactly as
`get_recommendations_from_db` returns them. -/
noncomputable def popularWithTitles (m : FactorModel) (n : Nat) : List (String × ℝ × String) :=
  (getPopularMovies m n 50).map (fun p => (p.1, ((p.2 : ℚ) : ℝ), getMovieTitle m p.1))

/-- CASE 1 (`user_in_trainset`): all trainset items, minus the already-rated
ones when `exclude_rated`, each scored by the Prediction Engine. -/
noncomputable def knownPredictionList (m : FactorModel) (db : List RatingRecord)
    (u : String) (excludeRated : Bool) : List (String × ℝ × String) :=
  let allIds := (List.range m.items.length).map (toRawIid m)
  let candidates :=
    if excludeRated then allIds.filter (fun mid => decide (mid ∉ ratedIds db u)) else allIds
  candidates.map (fun mid => (mid, ((predictRating m u mid : ℚ) : ℝ), getMovieTitle m mid))

/-- CASE 2 accumulation: for every liked dict entry (rating ≥ 4.0), every
top-20 similar item not already rated contributes `rating × similarity` to
the per-candidate score list of the `recommendations` defaultdict. -/
noncomputable def hybridScores (m : FactorModel) (db : List RatingRecord) (u : String) :
    List (String × List ℝ) :=
  (userRatingsDict db u).foldl
    (fun acc p =>
      if 4 ≤ p.2 then
        (getSimilarMovies m p.1 20 []).foldl
          (fun a q => if q.1 ∈ ratedIds db u then a else groupAdd a q.1 ((p.2 : ℝ) * q.2))
          acc
      else acc)
    []

/-- `np.mean` over the accumulated per-candidate scores. -/
noncomputable def meanR (l : List ℝ) : ℝ := l.sum / l.length

/-- CASE 2 final ranking: average each candidate's contributions, attach the
title, sort descending, truncate to `n`. -/
noncomputable def hybridRanked (m : FactorModel) (db : List RatingRecord) (u : String)
    (n : Nat) : List (String × ℝ × String) :=
  (((hybridScores m db u).map (fun p => (p.1, meanR p.2, getMovieTitle m p.1))).mergeSort
    byScoreR3).take n

/-- `get_recommendations_from_db(db, user_id, n, exclude_rated, use_hybrid)`:
the three-regime dispatch of the Ranking Engine. -/
noncomputable def getRecommendationsFromDb (m : FactorModel) (db : List RatingRecord)
    (u : String) (n : Nat) (excludeRated useHybrid : Bool) : List (String × ℝ × String) :=
  if userInTrainset m u then
    ((knownPredictionList m db u excludeRated).mergeSort byScoreR3).take n
  else if !(userRatingsDict db u).isEmpty && useHybrid then
    if (hybridScores m db u).isEmpty then popularWithTitles m n
    else hybridRanked m db u n
  else popularWithTitles m n

/-! ## Request validation boundary (main.py) -/

/-- The error taxonomy the boundary can signal for the recommendation
endpoint. -/
inductive ApiError where
  | invalidArgument
  | notReady
deriving DecidableEq

/-- `RecommendationsRequest`: pydantic requires `user_id` to be present (any
string, the empty one included) and `1 ≤ n ≤ 50`. -/
def recommendationsRequestValid (userId : String) (n : Int) : Bool :=
  1 ≤ n && n ≤ 50

/-- The `/recommendations/from-db` endpoint: validation then engine call with
`exclude_rated=True` and the hybrid path enabled. -/
noncomputable def recommendationsEndpoint (m : FactorModel) (db : List RatingRecord)
    (userId : String) (n : Int) : Except ApiError (List (String × ℝ × String)) :=
  if recommendationsRequestValid userId n then
    Except.ok (getRecommendationsFromDb m db userId n.toNat true true)
  else Except.error ApiError.invalidArgument

/-- The candidate accumulation of the COLD_WITH_HISTORY rule as §4.3 of the
spec words it: take the liked items (rating ≥ 4.0); for each, fetch the
top-20 similar items, weight each by (user's rating × similarity) and drop
candidates the user already rated; group the contributions per candidate. -/
noncomputable def coldWithHistorySpecGrouped (m : FactorModel) (db : List RatingRecord)
    (u : String) : List (String × List ℝ) :=
  (((userRatingsDict db u).filter (fun p => decide (4 ≤ p.2))).flatMap (fun p =>
      (getSimilarMovies m p.1 20 []).filterMap (fun q =>
        if q.1 ∈ ratedIds db u then none else some (q.1, (p.2 : ℝ) * q.2)))).foldl
    (fun a c => groupAdd a c.1 c.2) []

/-- The COLD_WITH_HISTORY rule as §4.3 of the spec words it, for comparison
with the source pipeline: average the grouped contributions per candidate,
sort descending, take the top `n`; fall through to the popular list when no
candidate was produced. -/
noncomputable def coldWithHistorySpec (m : FactorModel) (db : List RatingRecord)
    (u : String) (n : Nat) : List (String × ℝ × String) :=
  if (coldWithHistorySpecGrouped m db u).isEmpty then popularWithTitles m n
  else (((coldWithHistorySpecGrouped m db u).map
      (fun p => (p.1, meanR p.2, getMovieTitle m p.1))).mergeSort byScoreR3).take n

/-! ## Concrete witness data -/

/-- A small concrete model for witnesses: one known user, two known items. -/
def mA : FactorModel :=
  { users := ["u1"], items := ["1", "2"], pu := [[1, 0]], qi := [[1, 0], [0, 1]],
    bu := [0], bi := [0, 0], globalMean := 3,
    ur := [[(0, 5)]], titles := [("1", "Toy Story")] }

/-- A ledger where the known user "u1" has rated item "1". -/
def dbA : List RatingRecord := [⟨"u1", "1", 5, 0⟩]

/-- A ledger where the cold user "newu" (absent from `mA`) has one rating. -/
def dbB : List RatingRecord := [⟨"newu", "1", 5, 0⟩]

/-! ## C8: unknown similarity reference item -/

/-- C8: a similarity query for an item unknown to the Factor Model returns
the empty list (the `ValueError` of `to_inner_iid` is caught) instead of
raising. -/
theorem similar_unknown_item_empty (m : FactorModel) (movieId : String) (n : Nat)
    (excl : List String) (h : toInnerIid m movieId = none) :
    getSimilarMovies m movieId n excl = [] := by
  simp only [getSimilarMovies, h]

theorem similar_unknown_item_empty_witness :
    getSimilarMovies mA "999" 5 [] = [] :=
  similar_unknown_item_empty mA "999" 5 [] (by decide)

/-! ## C3: cold user with no history -/

theorem userRatingsDict_of_no_ratings (db : List RatingRecord) (u : String)
    (h : getUserRatings db u = []) : userRatingsDict db u = [] := by
  rw [userRatingsDict, h]
  rfl

/-- C3: for a user absent from the Factor Model with zero Ledger entries,
`get_recommendations_from_db` returns exactly the popular-items list for the
same `n` and the default threshold `min_ratings = 50`, titled as the
endpoint returns it. -/
theorem cold_no_history_equals_popular (m : FactorModel) (db : List RatingRecord)
    (u : String) (n : Nat)
    (h1 : userInTrainset m u = false) (h2 : getUserRatings db u = []) :
    getRecommendationsFromDb m db u n true true
      = (getPopularMovies m n 50).map (fun p => (p.1, ((p.2 : ℚ) : ℝ), getMovieTitle m p.1)) := by
  have hd : userRatingsDict db u = [] := userRatingsDict_of_no_ratings db u h2
  simp only [getRecommendationsFromDb, h1, hd, popularWithTitles, List.isEmpty_nil,
    Bool.not_true, Bool.false_and, Bool.false_eq_true, if_false]

theorem cold_no_history_equals_popular_witness :
    getRecommendationsFromDb mA [] "newu" 5 true true
      = (getPopularMovies mA 5 50).map (fun p => (p.1, ((p.2 : ℚ) : ℝ), getMovieTitle mA p.1)) :=
  cold_no_history_equals_popular mA [] "newu" 5 (by decide) rfl

/-! ## C4: exclusion of already-rated items for known users -/

/-- C4: for a user known to the Factor Model, `exclude_rated=True` removes
every item the user has rated (per the Rating Ledger) from the candidate
pool before scoring and truncation, so no output row carries a rated item,
for any `n`. -/
theorem known_user_exclusion (m : FactorModel) (db : List RatingRecord) (u : String)
    (n : Nat) (useHybrid : Bool) (h : userInTrainset m u = true) :
    (getRecommendationsFromDb m db u n true useHybrid).all
      (fun t => decide (t.1 ∉ ratedIds db u)) = true := by
  rw [List.all_eq_true]
  intro t ht
  simp only [getRecommendationsFromDb, h, if_true] at ht
  have ht2 : t ∈ (knownPredictionList m db u true).mergeSort byScoreR3 :=
    List.take_subset n _ ht
  have ht3 : t ∈ knownPredictionList m db u true := List.mem_mergeSort.mp ht2
  simp only [knownPredictionList, if_true] at ht3
  rcases List.mem_map.mp ht3 with ⟨mid, hmid, hteq⟩
  rcases List.mem_filter.mp hmid with ⟨-, hnotin⟩
  rw [← hteq]
  exact hnotin

theorem known_user_exclusion_witness :
    (getRecommendationsFromDb mA dbA "u1" 5 true true).all
      (fun t => decide (t.1 ∉ ratedIds dbA "u1")) = true :=
  known_user_exclusion mA dbA "u1" 5 true (by decide)

/-! ## C5: empty user identifier at the boundary -/

/-- C5 counterexample: the request with the empty user identifier passes the
request model (pydantic constrains only `n`, `1 ≤ n ≤ 50`) and the engine
serves it as a cold user; no InvalidArgument condition is signalled. -/
theorem empty_user_not_rejected_cex :
    recommendationsEndpoint mA [] "" 10
        = Except.ok (getRecommendationsFromDb mA [] "" 10 true true) ∧
    recommendationsEndpoint mA [] "" 10 ≠ Except.error ApiError.invalidArgument := by
  refine ⟨rfl, ?_⟩
  intro hcontra
  rw [show recommendationsEndpoint mA [] "" 10
      = Except.ok (getRecommendationsFromDb mA [] "" 10 true true) from rfl] at hcontra
  cases hcontra

/-- C5 (amended): the boundary performs no validation on the user
identifier: for every model, ledger and `1 ≤ n ≤ 50`, the request with the
empty identifier is accepted and answered with an engine result (the empty
identifier is simply a cold user); InvalidArgument arises only from `n`
outside [1, 50]. -/
theorem empty_user_accepted (m : FactorModel) (db : List RatingRecord) (k : Int)
    (h1 : 1 ≤ k) (h2 : k ≤ 50) :
    recommendationsEndpoint m db "" k
      = Except.ok (getRecommendationsFromDb m db "" k.toNat true true) := by
  have hv : recommendationsRequestValid "" k = true := by
    simp [recommendationsRequestValid, h1, h2]
  simp only [recommendationsEndpoint, hv, if_true]

theorem empty_user_accepted_witness :
    recommendationsEndpoint mA [] "" 5
      = Except.ok (getRecommendationsFromDb mA [] "" (Int.toNat 5) true true) :=
  empty_user_accepted mA [] 5 (by decide) (by decide)

/-! ## C2: the COLD_WITH_HISTORY rule -/

theorem dictInsert_ne_nil (d : List (String × ℚ)) (k : String) (v : ℚ) :
    dictInsert d k v ≠ [] := by
  cases d with
  | nil => simp [dictInsert]
  | cons p rest =>
    by_cases h : p.1 = k
    · simp [dictInsert, h]
    · simp [dictInsert, h]

theorem foldl_groupAdd_filterMap (rated : List String) (w : ℝ) (s : List (String × ℝ)) :
    ∀ acc : List (String × List ℝ),
      s.foldl (fun a q => if q.1 ∈ rated then a else groupAdd a q.1 (w * q.2)) acc
        = ((s.filterMap (fun q => if q.1 ∈ rated then none else some (q.1, w * q.2))).foldl
            (fun a c => groupAdd a c.1 c.2) acc) := by
  induction s with
  | nil => intro acc; rfl
  | cons q rest ih =>
    intro acc
    by_cases hq : q.1 ∈ rated
    · simp only [List.foldl_cons, List.filterMap_cons, hq, if_true]
      exact ih acc
    · simp only [List.foldl_cons, List.filterMap_cons, hq, if_false]
      exact ih (groupAdd acc q.1 (w * q.2))

theorem hybridScores_eq_spec (m : FactorModel) (db : List RatingRecord) (u : String) :
    hybridScores m db u = coldWithHistorySpecGrouped m db u := by
  rw [hybridScores, coldWithHistorySpecGrouped]
  generalize hl : userRatingsDict db u = l
  clear hl
  have main : ∀ (l : List (String × ℚ)) (acc : List (String × List ℝ)),
      l.foldl
        (fun acc p =>
          if 4 ≤ p.2 then
            (getSimilarMovies m p.1 20 []).foldl
              (fun a q => if q.1 ∈ ratedIds db u then a
               else groupAdd a q.1 ((p.2 : ℝ) * q.2)) acc
          else acc) acc
      = ((l.filter (fun p => decide (4 ≤ p.2))).flatMap (fun p =>
          (getSimilarMovies m p.1 20 []).filterMap (fun q =>
            if q.1 ∈ ratedIds db u then none else some (q.1, (p.2 : ℝ) * q.2)))).foldl
          (fun a c => groupAdd a c.1 c.2) acc := by
    intro l
    induction l with
    | nil => intro acc; rfl
    | cons p rest ih =>
      intro acc
      by_cases hp : 4 ≤ p.2
      · rw [List.foldl_cons, if_pos hp,
          List.filter_cons_of_pos (by simpa using hp), List.flatMap_cons,
          List.foldl_append, ih, foldl_groupAdd_filterMap]
      · rw [List.foldl_cons, if_neg hp,
          List.filter_cons_of_neg (by simpa using hp), ih]
  exact main l []

/-- C2: for a user absent from the Factor Model with at least one Ledger
rating, `get_recommendations_from_db` computes exactly the COLD_WITH_HISTORY
rule of the spec: liked items (rating ≥ 4.0) pull their top-20 similar
items, each weighted by (user's rating × similarity), already-rated
candidates are excluded, repeated contributions are averaged per candidate,
the result is sorted descending and truncated to `n`, and zero candidates
fall through to the popular list. -/
theorem cold_with_history_rule (m : FactorModel) (db : List RatingRecord) (u : String)
    (n : Nat) (h1 : userInTrainset m u = false) (h2 : getUserRatings db u ≠ []) :
    getRecommendationsFromDb m db u n true true = coldWithHistorySpec m db u n := by
  have hne : userRatingsDict db u ≠ [] := by
    rw [userRatingsDict]
    cases hgu : getUserRatings db u with
    | nil => exact absurd hgu h2
    | cons rec rest =>
      rw [List.foldl_cons]
      exact foldl_preserve (fun d => d ≠ [])
        (fun d rec => dictInsert d rec.movieId rec.rating)
        (fun a c _ => dictInsert_ne_nil a c.movieId c.rating)
        rest _ (dictInsert_ne_nil [] rec.movieId rec.rating)
  have hd : (userRatingsDict db u).isEmpty = false := List.isEmpty_eq_false.mpr hne
  simp only [getRecommendationsFromDb, h1, hd, Bool.false_eq_true, if_false,
    Bool.not_false, Bool.true_and, if_true, coldWithHistorySpec,
    ← hybridScores_eq_spec, hybridRanked]

theorem cold_with_history_rule_witness :
    getRecommendationsFromDb mA dbB "newu" 5 true true = coldWithHistorySpec mA dbB "newu" 5 :=
  cold_with_history_rule mA dbB "newu" 5 (by decide) (by decide)
